import Mathlib

/-!
Shallow embedding of the Elasticsearch StatefulSet downscale orchestrator
(`pkg/controller/elasticsearch/driver/downscale.go` of sebgl/cloud-on-k8s).

The file translates the downscale pass into pure Lean functions over an
explicit environment of external oracles (Kubernetes API results,
Elasticsearch API results, observed migration state).  Each function in the
driver that performs external calls is modelled as a function returning the
list of side effects it issues (in issue order) together with its result.

Replica counts are `int32` in Go but are Kubernetes replica counts, which
are validated to be nonnegative; they are modelled as `Nat`.
-/

namespace Downscale

/-- A StatefulSet as seen by the downscale driver: its name, its spec
replica count (`sset.Replicas`), whether its pod template carries the
master-node label (`label.IsMasterNodeSet`), and whether its nodes run a
version compatible with the legacy zen1 protocol.  The last two fields are
modelled from the spec: the label and version helpers are not part of the
extracted sources, only the boolean answers they provide matter here. -/
structure StatefulSet where
  name : String
  replicas : Nat
  master : Bool
  zen1Compatible : Bool
deriving Repr, DecidableEq

/-- Modelled from the spec: pod names of a StatefulSet are the StatefulSet
name suffixed with the pod ordinal (`sset.PodName`, whose body is not in the
extracted sources; its callers build names this way). -/
def PodName (ssetName : String) (ordinal : Nat) : String :=
  ssetName ++ "-" ++ toString ordinal

/-- `StatefulSetList.GetByName`: first StatefulSet with the given name. -/
def GetByName (l : List StatefulSet) (name : String) : Option StatefulSet :=
  l.find? (fun s => s.name == name)

/-- `zen1.AtLeastOneNodeCompatibleWithZen1`, modelled from the spec: true
when any node in the cluster still runs a version requiring the legacy
voting protocol. -/
def atLeastOneNodeCompatibleWithZen1 (actualStatefulSets : List StatefulSet) : Bool :=
  actualStatefulSets.any (fun s => s.zen1Compatible)

/-- `ssetDownscale`: the downscale of a single StatefulSet.  A StatefulSet
removal (going from 0 to 0 replicas) is also considered a downscale. -/
structure ssetDownscale where
  statefulSet : StatefulSet
  initialReplicas : Nat
  targetReplicas : Nat
deriving Repr, DecidableEq

/-- The decreasing ordinal sequence `target + n - 1, ..., target + 1, target`
produced by the Go loop `for i := initialReplicas - 1; i >= targetReplicas; i--`. -/
def ordinalsDesc (target : Nat) : Nat → List Nat
  | 0 => []
  | n + 1 => (target + n) :: ordinalsDesc target n

/-- `ssetDownscale.leavingNodeNames`: names of the nodes supposed to leave
the cluster for this StatefulSet, ordered by highest ordinal first. -/
def ssetDownscale.leavingNodeNames (d : ssetDownscale) : List String :=
  if d.initialReplicas ≤ d.targetReplicas then []
  else
    (ordinalsDesc d.targetReplicas (d.initialReplicas - d.targetReplicas)).map
      (PodName d.statefulSet.name)

/-- `ssetDownscale.isRemoval`: the StatefulSet does not have any replica,
and should not have one. -/
def ssetDownscale.isRemoval (d : ssetDownscale) : Bool :=
  d.initialReplicas == 0 && d.targetReplicas == 0

/-- `ssetDownscale.isReplicaDecrease`: this downscale decreases replicas. -/
def ssetDownscale.isReplicaDecrease (d : ssetDownscale) : Bool :=
  decide (d.targetReplicas < d.initialReplicas)

/-- Free function `leavingNodeNames`: names of all nodes that should leave
the cluster, across StatefulSets, accumulated in order. -/
def leavingNodeNames (downscales : List ssetDownscale) : List String :=
  downscales.foldl (fun acc d => acc ++ d.leavingNodeNames) []

/-- The expected replica count used by `calculateDownscales` for an actual
StatefulSet: the replicas of the expected StatefulSet of the same name, or
0 when absent (StatefulSet removal). -/
def effectiveExpectedReplicas (expectedStatefulSets : List StatefulSet) (name : String) : Nat :=
  match GetByName expectedStatefulSets name with
  | some expectedSset => expectedSset.replicas
  | none => 0

/-- `calculateDownscales`: compares expected and actual StatefulSets and
returns one `ssetDownscale` per actual StatefulSet whose expected replica
count is 0 (removal) or strictly less than its actual replica count. -/
def calculateDownscales (expectedStatefulSets actualStatefulSets : List StatefulSet) :
    List ssetDownscale :=
  actualStatefulSets.filterMap (fun actualSset =>
    let actualReplicas := actualSset.replicas
    let expectedReplicas := effectiveExpectedReplicas expectedStatefulSets actualSset.name
    if expectedReplicas = 0 ∨ expectedReplicas < actualReplicas then
      some { statefulSet := actualSset
             initialReplicas := actualReplicas
             targetReplicas := expectedReplicas }
    else none)

/-- One externally visible side effect issued by the downscale pass, in the
order the driver issues the underlying API calls. -/
inductive Effect where
  /-- `migration.MigrateData`: push the shard-allocation exclusion setting
  for the given leaving nodes (clearing it when the list is empty). -/
  | migrateData (leavingNodes : List String)
  /-- `k8sClient.Delete` of a StatefulSet. -/
  | deleteStatefulSet (name : String)
  /-- `reconcileState.AddEvent`. -/
  | addEvent (reason message : String)
  /-- `zen1.UpdateMinimumMasterNodesTo`. -/
  | updateMinimumMasterNodes (value : Nat)
  /-- `zen2.AddToVotingConfigExclusions` for the given StatefulSet. -/
  | addVotingConfigExclusions (ssetName : String) (leavingNodes : List String)
  /-- `k8sClient.Update` setting the StatefulSet spec replicas. -/
  | updateReplicas (ssetName : String) (replicas : Nat)
  /-- `expectations.ExpectGeneration` on the updated StatefulSet. -/
  | expectGeneration (ssetName : String)
  /-- `reconcileState.UpdateElasticsearchMigrating`. -/
  | updateMigratingStatus
deriving Repr, DecidableEq

/-- Effects that mutate Kubernetes state (StatefulSet deletion or replica
update). -/
def Effect.isK8sMutation : Effect → Bool
  | .deleteStatefulSet _ => true
  | .updateReplicas _ _ => true
  | _ => false

/-- Effects that are zen quorum-settings calls against Elasticsearch. -/
def Effect.isZenSettingsCall : Effect → Bool
  | .updateMinimumMasterNodes _ => true
  | .addVotingConfigExclusions _ _ => true
  | _ => false

/-- Effects that are replica-count updates. -/
def Effect.isReplicaUpdate : Effect → Bool
  | .updateReplicas _ _ => true
  | _ => false

/-- The external world of one reconciliation pass: results of every
external call the driver may issue, fixed for the duration of the pass.
Errors are represented by their message. -/
structure Env where
  /-- Result of `actualStatefulSets.PodReconciliationDone` in
  `noOnGoingDeletion`. -/
  podReconciliationDone : Except String Bool
  /-- Result of `migration.MigrateData`. -/
  migrateDataResult : Option String
  /-- `migration.IsMigratingData observedState node allLeavingNodes`:
  whether the node still holds shard data to move. -/
  isMigratingData : String → List String → Bool
  /-- Result of `k8sClient.Delete` for the named StatefulSet. -/
  deleteResult : String → Option String
  /-- Result of `k8sClient.Update` for the named StatefulSet. -/
  updateResult : String → Option String
  /-- `sset.GetActualPodsForCluster` followed by master filtering and
  availability counting: the number of ready master pods, or an error. -/
  readyMasters : Except String Nat
  /-- Result of `zen1.UpdateMinimumMasterNodesTo`. -/
  zen1UpdateResult : Option String
  /-- Result of `zen2.AddToVotingConfigExclusions`. -/
  zen2UpdateResult : Option String

/-- `noOnGoingDeletion`: true when every pod implied by the StatefulSet
specs exists and is accounted for. -/
def noOnGoingDeletion (env : Env) : Except String Bool :=
  env.podReconciliationDone

/-- `maybeUpdateZen1ForDownscale`: updates zen1 minimum master nodes when
downscaling from 2 to 1 master nodes (exactly 2 ready master pods observed
cluster-wide and at least one zen1-compatible node). -/
def maybeUpdateZen1ForDownscale (env : Env) (actualStatefulSets : List StatefulSet) :
    List Effect × Option String :=
  if !atLeastOneNodeCompatibleWithZen1 actualStatefulSets then ([], none)
  else
    match env.readyMasters with
    | .error e => ([], some e)
    | .ok mastersReady =>
      if mastersReady ≠ 2 then ([], none)
      else
        ([Effect.addEvent "Unhealthy" "Downscaling from 2 to 1 master nodes",
          Effect.updateMinimumMasterNodes 1],
         env.zen1UpdateResult)

/-- `updateZenSettingsForDownscale`: makes sure zen1 and zen2 settings are
updated to account for nodes that will soon be removed.  Does nothing for
non-master StatefulSets. -/
def updateZenSettingsForDownscale (env : Env) (downscale : ssetDownscale)
    (actualStatefulSets : List StatefulSet) : List Effect × Option String :=
  if !downscale.statefulSet.master then ([], none)
  else
    let zen1 := maybeUpdateZen1ForDownscale env actualStatefulSets
    match zen1.2 with
    | some e => (zen1.1, some e)
    | none =>
      (zen1.1 ++
         [Effect.addVotingConfigExclusions downscale.statefulSet.name
            downscale.leavingNodeNames],
       env.zen2UpdateResult)

/-- `doDownscale`: updates zen settings, then issues the StatefulSet
replica-count update, then records the generation expectation. -/
def doDownscale (env : Env) (downscale : ssetDownscale)
    (actualStatefulSets : List StatefulSet) : List Effect × Option String :=
  let zen := updateZenSettingsForDownscale env downscale actualStatefulSets
  match zen.2 with
  | some e => (zen.1, some e)
  | none =>
    let upd := Effect.updateReplicas downscale.statefulSet.name downscale.targetReplicas
    match env.updateResult downscale.statefulSet.name with
    | some e => (zen.1 ++ [upd], some e)
    | none => (zen.1 ++ [upd, Effect.expectGeneration downscale.statefulSet.name], none)

/-- The loop of `calculatePerformableDownscale`: walk the leaving nodes
(highest ordinal first) and decrement the target while data migration is
over, stopping (and recording the migrating status) at the first node whose
migration is not over. -/
def performableTargetLoop (env : Env) (allLeavingNodes : List String) :
    List String → Nat → List Effect × Nat
  | [], target => ([], target)
  | node :: rest, target =>
    if env.isMigratingData node allLeavingNodes then
      ([Effect.updateMigratingStatus], target)
    else
      performableTargetLoop env allLeavingNodes rest (target - 1)

/-- `calculatePerformableDownscale`: updates the downscale target replicas
to account for nodes which cannot be safely deleted yet, starting from the
initial replicas. -/
def calculatePerformableDownscale (env : Env) (downscale : ssetDownscale)
    (allLeavingNodes : List String) : List Effect × ssetDownscale :=
  let walk := performableTargetLoop env allLeavingNodes
    downscale.leavingNodeNames downscale.initialReplicas
  (walk.1,
   { statefulSet := downscale.statefulSet
     initialReplicas := downscale.initialReplicas
     targetReplicas := walk.2 })

/-- `attemptDownscale`: deletes the StatefulSet when the downscale is a
removal, otherwise performs the performable part of a replica decrease.
Returns (effects, (shouldRequeue, error)). -/
def attemptDownscale (env : Env) (downscale : ssetDownscale)
    (allLeavingNodes : List String) (statefulSets : List StatefulSet) :
    List Effect × Bool × Option String :=
  if downscale.isRemoval then
    ([Effect.deleteStatefulSet downscale.statefulSet.name], false,
     env.deleteResult downscale.statefulSet.name)
  else if downscale.isReplicaDecrease then
    let p := calculatePerformableDownscale env downscale allLeavingNodes
    if !p.2.isReplicaDecrease then
      (p.1, true, none)
    else
      let shouldRequeue := decide (p.2.targetReplicas ≠ downscale.targetReplicas)
      let done := doDownscale env p.2 statefulSets
      (p.1 ++ done.1, shouldRequeue, done.2)
  else ([], false, none)

/-- The final outcome of a pass, as consumed from the `reconciler.Results`
accumulator: a hard error, a requeue after the default delay, or neither. -/
inductive Outcome where
  | error (e : String)
  | requeue
  | noRequeue
deriving Repr, DecidableEq

/-- The `for _, downscale := range downscales` loop of `HandleDownscale`:
attempts every downscale in order, returning immediately on a hard error,
and accumulating the requeue signal otherwise. -/
def downscaleLoop (env : Env) (allLeavingNodes : List String)
    (actualStatefulSets : List StatefulSet) :
    List ssetDownscale → Bool → List Effect × Outcome
  | [], requeued => ([], if requeued then .requeue else .noRequeue)
  | d :: rest, requeued =>
    let attempt := attemptDownscale env d allLeavingNodes actualStatefulSets
    match attempt.2.2 with
    | some e => (attempt.1, .error e)
    | none =>
      let tail := downscaleLoop env allLeavingNodes actualStatefulSets rest
        (requeued || attempt.2.1)
      (attempt.1 ++ tail.1, tail.2)

/-- `HandleDownscale`: attempts to downscale actual StatefulSets towards
expected ones. -/
def HandleDownscale (env : Env) (expectedStatefulSets actualStatefulSets : List StatefulSet) :
    List Effect × Outcome :=
  match noOnGoingDeletion env with
  | .error e => ([], .error e)
  | .ok canProceed =>
    if !canProceed then ([], .requeue)
    else
      let downscales := calculateDownscales expectedStatefulSets actualStatefulSets
      let leavingNodes := leavingNodeNames downscales
      match env.migrateDataResult with
      | some e => ([Effect.migrateData leavingNodes], .error e)
      | none =>
        let loop := downscaleLoop env leavingNodes actualStatefulSets downscales false
        (Effect.migrateData leavingNodes :: loop.1, loop.2)

/-- The Kubernetes store's response to one emitted effect: a StatefulSet
deletion removes the named StatefulSet, a replica update sets the named
StatefulSet's replicas; other effects do not touch Kubernetes objects. -/
def applyEffect (state : List StatefulSet) : Effect → List StatefulSet
  | .deleteStatefulSet nm => state.filter (fun a => a.name != nm)
  | .updateReplicas nm r =>
    state.map (fun a => if a.name == nm then { a with replicas := r } else a)
  | _ => state

/-- Applies a trace of effects to the Kubernetes StatefulSet state. -/
def applyEffects (trace : List Effect) (state : List StatefulSet) : List StatefulSet :=
  trace.foldl applyEffect state

/-! ### Concrete fixtures and blocked-pass trace model used by the theorems below -/

/-- An all-successful environment with a configurable migration oracle,
used as a concrete fixture by witnesses and scenario theorems. -/
def envWith (mig : String → List String → Bool) : Env :=
  { podReconciliationDone := .ok true
    migrateDataResult := none
    isMigratingData := mig
    deleteResult := fun _ => none
    updateResult := fun _ => none
    readyMasters := .ok 0
    zen1UpdateResult := none
    zen2UpdateResult := none }

/-- A master-eligible StatefulSet (not zen1-compatible) and its 5-to-3
downscale, used as fixtures. -/
def mSset : StatefulSet := ⟨"m", 5, true, false⟩

def dM : ssetDownscale := ⟨mSset, 5, 3⟩

/-- The all-successful environment, except that the zen2 voting exclusion
call fails. -/
def envZen2Err : Env :=
  { envWith (fun _ _ => false) with zen2UpdateResult := some "zen2 failed" }

/-- A master-eligible zen1-compatible StatefulSet and its downscale. -/
def mZenSset : StatefulSet := ⟨"m", 5, true, true⟩

def dMZen : ssetDownscale := ⟨mZenSset, 5, 3⟩

/-- The all-successful environment observing `k` ready master pods. -/
def envMasters (k : Nat) : Env :=
  { envWith (fun _ _ => false) with readyMasters := .ok k }

/-- The all-successful environment except that the migration-scheduling
call fails. -/
def envMigErr : Env :=
  { envWith (fun _ _ => false) with migrateDataResult := some "es down" }

/-- The all-successful environment except that StatefulSet deletion fails. -/
def envDelErr : Env :=
  { envWith (fun _ _ => false) with deleteResult := fun _ => some "api error" }

/-- The StatefulSet present with 0 replicas on both sides. -/
def sZero : StatefulSet := ⟨"s", 0, false, false⟩

/-- Concrete expected and actual topologies for the Differ witness: a
shrinks 5 to 3, b must be removed, c matches. -/
def exp4 : List StatefulSet := [⟨"a", 3, false, false⟩, ⟨"c", 2, false, false⟩]

def act4 : List StatefulSet :=
  [⟨"a", 5, false, false⟩, ⟨"b", 2, false, false⟩, ⟨"c", 2, false, false⟩]

/-- Scenario B expected topology. -/
def expB : List StatefulSet := [⟨"data", 3, false, false⟩]

/-- Scenario B actual topology. -/
def actB : List StatefulSet := [⟨"data", 5, false, false⟩]

/-- Scenario B environment as the claim states it: the leaving node at
ordinal 4 reports migration incomplete, ordinal 3 reports complete. -/
def envB : Env := envWith (fun n _ => n == "data-4")

/-- The dual environment: ordinal 4 complete, ordinal 3 incomplete. -/
def envBdual : Env := envWith (fun n _ => n == "data-3")

/-- The effect trace `attemptDownscale` issues for one intent when every
leaving node is still migrating: the deletion for a removal, the migrating
status update for a blocked replica decrease, nothing otherwise. -/
def attemptTraceBlocked (d : ssetDownscale) : List Effect :=
  if d.isRemoval then [Effect.deleteStatefulSet d.statefulSet.name]
  else if d.isReplicaDecrease then [Effect.updateMigratingStatus]
  else []

/-- Concatenated blocked-pass traces of a list of intents. -/
def blockedTrace : List ssetDownscale → List Effect
  | [] => []
  | d :: rest => attemptTraceBlocked d ++ blockedTrace rest

/-- Names of the StatefulSets of the removal intents. -/
def removalNames (ds : List ssetDownscale) : List String :=
  (ds.filter (fun d => d.isRemoval)).map (fun d => d.statefulSet.name)

/-- An idempotence fixture: one StatefulSet to remove, one blocked
shrink. -/
def exp9 : List StatefulSet := [⟨"keep", 3, false, false⟩]

def act9 : List StatefulSet := [⟨"gone", 0, false, false⟩, ⟨"keep", 5, false, false⟩]

/-- The all-successful environment in which every node still migrates. -/
def envAllMigrating : Env := envWith (fun _ _ => true)

/-! ### Helper lemmas about the ordinal enumeration -/

theorem ordinalsDesc_length (t n : Nat) : (ordinalsDesc t n).length = n := by
  induction n with
  | zero => rfl
  | succ m ih => simp [ordinalsDesc, ih]

theorem mem_ordinalsDesc {t n o : Nat} :
    o ∈ ordinalsDesc t n ↔ t ≤ o ∧ o < t + n := by
  induction n with
  | zero => simp [ordinalsDesc]
  | succ m ih =>
    simp only [ordinalsDesc, List.mem_cons, ih]
    constructor
    · rintro (rfl | ⟨h1, h2⟩)
      · exact ⟨Nat.le_add_right t m, by omega⟩
      · exact ⟨h1, by omega⟩
    · rintro ⟨h1, h2⟩
      by_cases ho : o = t + m
      · exact Or.inl ho
      · exact Or.inr ⟨h1, by omega⟩

theorem ordinalsDesc_chain (t n : Nat) :
    List.Chain' (fun a b => b < a) (ordinalsDesc t n) := by
  induction n with
  | zero => simp [ordinalsDesc]
  | succ m ih =>
    cases m with
    | zero => simp [ordinalsDesc]
    | succ k =>
      refine List.chain'_cons.mpr ⟨?_, ih⟩
      omega

theorem leavingNodeNames_length (d : ssetDownscale) :
    d.leavingNodeNames.length = d.initialReplicas - d.targetReplicas := by
  unfold ssetDownscale.leavingNodeNames
  by_cases h : d.initialReplicas ≤ d.targetReplicas
  · simp [h, Nat.sub_eq_zero_of_le h]
  · simp [h, ordinalsDesc_length]

theorem leavingNodeNames_ne_nil_of_decrease {d : ssetDownscale}
    (h : d.isReplicaDecrease = true) : d.leavingNodeNames ≠ [] := by
  have hlt : d.targetReplicas < d.initialReplicas := by
    simpa [ssetDownscale.isReplicaDecrease] using h
  intro hnil
  have := leavingNodeNames_length d
  rw [hnil] at this
  simp at this
  omega

/-! ### Helper lemmas about the performable-target walk -/

theorem performableTargetLoop_snd (env : Env) (allLeavingNodes : List String) :
    ∀ (l : List String) (t : Nat),
      (performableTargetLoop env allLeavingNodes l t).2 =
        t - (l.takeWhile (fun n => !env.isMigratingData n allLeavingNodes)).length := by
  intro l
  induction l with
  | nil => intro t; simp [performableTargetLoop]
  | cons node rest ih =>
    intro t
    by_cases hm : env.isMigratingData node allLeavingNodes
    · simp [performableTargetLoop, hm, List.takeWhile]
    · have hm' : env.isMigratingData node allLeavingNodes = false := by
        simpa using hm
      simp [performableTargetLoop, hm', List.takeWhile, ih]
      omega

theorem takeWhile_length_le_of_get? {α : Type} (p : α → Bool) :
    ∀ (l : List α) (j : Nat) (x : α), l.get? j = some x → p x = false →
      (l.takeWhile p).length ≤ j := by
  intro l
  induction l with
  | nil => intro j x h; simp at h
  | cons a rest ih =>
    intro j x hget hpx
    cases j with
    | zero =>
      simp only [List.get?] at hget
      injection hget with hax
      subst hax
      simp [List.takeWhile, hpx]
    | succ k =>
      simp only [List.get?] at hget
      by_cases hpa : p a
      · simp only [List.takeWhile, hpa, List.length_cons]
        exact Nat.succ_le_succ (ih k x hget hpx)
      · simp [List.takeWhile, Bool.of_not_eq_true hpa]

theorem takeWhile_length_le_length {α : Type} (p : α → Bool) (l : List α) :
    (l.takeWhile p).length ≤ l.length := by
  induction l with
  | nil => simp
  | cons a rest ih =>
    by_cases hpa : p a
    · simp only [List.takeWhile, hpa, List.length_cons]
      exact Nat.succ_le_succ ih
    · simp [List.takeWhile, Bool.of_not_eq_true hpa]

/-! ### C8: shape of the leaving node names -/

/-- C8: for every ssetDownscale intent, `leavingNodeNames` is the image
under `PodName` of a strictly descending list of ordinals, all of which are
below `initialReplicas` and at least `targetReplicas`; the list is empty
when `targetReplicas ≥ initialReplicas`. -/
theorem leavingNodeNames_spec (d : ssetDownscale) :
    (d.initialReplicas ≤ d.targetReplicas → d.leavingNodeNames = []) ∧
    ∃ ords : List Nat,
      d.leavingNodeNames = ords.map (PodName d.statefulSet.name) ∧
      List.Chain' (fun a b => b < a) ords ∧
      ∀ o ∈ ords, d.targetReplicas ≤ o ∧ o < d.initialReplicas := by
  constructor
  · intro h
    simp [ssetDownscale.leavingNodeNames, h]
  · by_cases h : d.initialReplicas ≤ d.targetReplicas
    · refine ⟨[], ?_, by simp, by simp⟩
      simp [ssetDownscale.leavingNodeNames, h]
    · refine ⟨ordinalsDesc d.targetReplicas (d.initialReplicas - d.targetReplicas),
        ?_, ordinalsDesc_chain _ _, ?_⟩
      · simp [ssetDownscale.leavingNodeNames, h]
      · intro o ho
        have := mem_ordinalsDesc.mp ho
        omega

/-- Witness for C8 at a concrete intent: a 5-to-3 downscale of a
StatefulSet named data. -/
theorem leavingNodeNames_spec_witness :
    ((⟨⟨"data", 5, false, false⟩, 5, 3⟩ : ssetDownscale).leavingNodeNames =
       ["data-4", "data-3"]) ∧
    (5 ≤ 3 → (⟨⟨"data", 5, false, false⟩, 5, 3⟩ : ssetDownscale).leavingNodeNames = []) ∧
    ∃ ords : List Nat,
      (⟨⟨"data", 5, false, false⟩, 5, 3⟩ : ssetDownscale).leavingNodeNames =
        ords.map (PodName "data") ∧
      List.Chain' (fun a b => b < a) ords ∧
      ∀ o ∈ ords, 3 ≤ o ∧ o < 5 := by
  refine ⟨rfl, ?_, ?_⟩
  · exact (leavingNodeNames_spec ⟨⟨"data", 5, false, false⟩, 5, 3⟩).1
  · exact (leavingNodeNames_spec ⟨⟨"data", 5, false, false⟩, 5, 3⟩).2

/-! ### C1: migration gating -/

/-- C1: `calculatePerformableDownscale` walks the leaving nodes highest
ordinal first and stops at the first node still migrating: the performable
target equals `initialReplicas` minus the length of the longest prefix of
confirmed-migrated leaving nodes, and every leaving node reported as still
migrating sits at a position of the highest-first list at least the number
of nodes removed, so neither it nor any lower-ordinal node is removed by
this pass. -/
theorem migration_gating (env : Env) (d : ssetDownscale) (allLeavingNodes : List String) :
    (calculatePerformableDownscale env d allLeavingNodes).2.targetReplicas =
      d.initialReplicas -
        (d.leavingNodeNames.takeWhile
          (fun n => !env.isMigratingData n allLeavingNodes)).length ∧
    ∀ (j : Nat) (n : String), d.leavingNodeNames.get? j = some n →
      env.isMigratingData n allLeavingNodes = true →
      d.initialReplicas -
          (calculatePerformableDownscale env d allLeavingNodes).2.targetReplicas ≤ j := by
  have hmain :
      (calculatePerformableDownscale env d allLeavingNodes).2.targetReplicas =
        d.initialReplicas -
          (d.leavingNodeNames.takeWhile
            (fun n => !env.isMigratingData n allLeavingNodes)).length := by
    simp [calculatePerformableDownscale, performableTargetLoop_snd]
  refine ⟨hmain, ?_⟩
  intro j n hget hmig
  rw [hmain]
  have hk : (d.leavingNodeNames.takeWhile
      (fun n => !env.isMigratingData n allLeavingNodes)).length ≤ j :=
    takeWhile_length_le_of_get? _ _ j n hget (by simp [hmig])
  have hlen : (d.leavingNodeNames.takeWhile
      (fun n => !env.isMigratingData n allLeavingNodes)).length ≤
        d.initialReplicas := by
    calc (d.leavingNodeNames.takeWhile
        (fun n => !env.isMigratingData n allLeavingNodes)).length
        ≤ d.leavingNodeNames.length := takeWhile_length_le_length _ _
      _ = d.initialReplicas - d.targetReplicas := leavingNodeNames_length d
      _ ≤ d.initialReplicas := Nat.sub_le _ _
  omega

/-- Witness for C1: a 5-to-3 downscale where the node at ordinal 3 is still
migrating; only the node at ordinal 4 (position 0) is removed, the blocked
node at position 1 is retained. -/
theorem migration_gating_witness :
    (calculatePerformableDownscale (envWith (fun n _ => n == "data-3"))
        ⟨⟨"data", 5, false, false⟩, 5, 3⟩ ["data-4", "data-3"]).2.targetReplicas = 4 ∧
    5 - (calculatePerformableDownscale (envWith (fun n _ => n == "data-3"))
        ⟨⟨"data", 5, false, false⟩, 5, 3⟩ ["data-4", "data-3"]).2.targetReplicas ≤ 1 := by
  constructor
  · have h := (migration_gating (envWith (fun n _ => n == "data-3"))
      ⟨⟨"data", 5, false, false⟩, 5, 3⟩ ["data-4", "data-3"]).1
    simpa using h
  · exact (migration_gating (envWith (fun n _ => n == "data-3"))
      ⟨⟨"data", 5, false, false⟩, 5, 3⟩ ["data-4", "data-3"]).2 1 "data-3" rfl rfl

/-! ### Structure of the doDownscale effect trace -/

theorem mem_maybeZen1_trace (env : Env) (acts : List StatefulSet) :
    ∀ eff ∈ (maybeUpdateZen1ForDownscale env acts).1,
      eff = Effect.addEvent "Unhealthy" "Downscaling from 2 to 1 master nodes" ∨
      eff = Effect.updateMinimumMasterNodes 1 := by
  intro eff h
  unfold maybeUpdateZen1ForDownscale at h
  split at h
  · simp at h
  · split at h
    · simp at h
    · split at h
      · simp at h
      · simp only [List.mem_cons, List.mem_singleton] at h
        rcases h with h | h | h
        · exact Or.inl h
        · exact Or.inr h
        · exact absurd h (by simp)

theorem mem_updateZen_trace (env : Env) (d : ssetDownscale) (acts : List StatefulSet) :
    ∀ eff ∈ (updateZenSettingsForDownscale env d acts).1,
      eff ∈ (maybeUpdateZen1ForDownscale env acts).1 ∨
      eff = Effect.addVotingConfigExclusions d.statefulSet.name d.leavingNodeNames := by
  intro eff h
  by_cases hm : d.statefulSet.master
  · cases hz : (maybeUpdateZen1ForDownscale env acts).2 with
    | some e =>
      simp only [updateZenSettingsForDownscale, hm, Bool.not_true, Bool.false_eq_true,
        if_false, hz] at h
      exact Or.inl h
    | none =>
      simp only [updateZenSettingsForDownscale, hm, Bool.not_true, Bool.false_eq_true,
        if_false, hz, List.mem_append, List.mem_singleton] at h
      rcases h with h | h
      · exact Or.inl h
      · exact Or.inr h
  · have hm' : d.statefulSet.master = false := by simpa using hm
    simp [updateZenSettingsForDownscale, hm'] at h

theorem zenSettings_trace_k8s_free (env : Env) (d : ssetDownscale) (acts : List StatefulSet) :
    ∀ eff ∈ (updateZenSettingsForDownscale env d acts).1, eff.isK8sMutation = false := by
  intro eff h
  rcases mem_updateZen_trace env d acts eff h with h1 | h1
  · rcases mem_maybeZen1_trace env acts eff h1 with h2 | h2 <;> subst h2 <;> rfl
  · subst h1; rfl

theorem zenSettings_trace_is_zen (env : Env) (d : ssetDownscale) (acts : List StatefulSet) :
    ∀ eff ∈ (updateZenSettingsForDownscale env d acts).1,
      eff.isZenSettingsCall = true ∨
      eff = Effect.addEvent "Unhealthy" "Downscaling from 2 to 1 master nodes" := by
  intro eff h
  rcases mem_updateZen_trace env d acts eff h with h1 | h1
  · rcases mem_maybeZen1_trace env acts eff h1 with h2 | h2
    · exact Or.inr h2
    · subst h2; exact Or.inl rfl
  · subst h1; exact Or.inl rfl

theorem doDownscale_of_zen_err (env : Env) (d : ssetDownscale) (acts : List StatefulSet)
    (e : String) (hz : (updateZenSettingsForDownscale env d acts).2 = some e) :
    doDownscale env d acts = ((updateZenSettingsForDownscale env d acts).1, some e) := by
  simp [doDownscale, hz]

/-- `doDownscale`'s trace is the zen-settings trace followed by a suffix
holding only the replica update and the generation expectation; the suffix
is empty exactly when the zen-settings step failed, and starts with the
replica update when it succeeded. -/
theorem doDownscale_split (env : Env) (d : ssetDownscale) (acts : List StatefulSet) :
    ∃ rest,
      (doDownscale env d acts).1 = (updateZenSettingsForDownscale env d acts).1 ++ rest ∧
      (∀ eff ∈ rest,
        eff = Effect.updateReplicas d.statefulSet.name d.targetReplicas ∨
        eff = Effect.expectGeneration d.statefulSet.name) ∧
      ((updateZenSettingsForDownscale env d acts).2 = none →
        rest.get? 0 = some (Effect.updateReplicas d.statefulSet.name d.targetReplicas)) ∧
      (∀ e, (updateZenSettingsForDownscale env d acts).2 = some e → rest = []) := by
  cases hz : (updateZenSettingsForDownscale env d acts).2 with
  | some e =>
    refine ⟨[], ?_, by simp, by simp [hz], fun _ _ => rfl⟩
    simp [doDownscale, hz]
  | none =>
    cases hu : env.updateResult d.statefulSet.name with
    | some e =>
      refine ⟨[Effect.updateReplicas d.statefulSet.name d.targetReplicas],
        ?_, ?_, fun _ => rfl, by simp [hz]⟩
      · simp [doDownscale, hz, hu]
      · intro eff h; simp at h; exact Or.inl h
    | none =>
      refine ⟨[Effect.updateReplicas d.statefulSet.name d.targetReplicas,
               Effect.expectGeneration d.statefulSet.name],
        ?_, ?_, fun _ => rfl, by simp [hz]⟩
      · simp [doDownscale, hz, hu]
      · intro eff h
        simp only [List.mem_cons, List.mem_singleton] at h
        rcases h with h | h | h
        · exact Or.inl h
        · exact Or.inr h
        · exact absurd h (by simp)

theorem doDownscale_replica_update_index (env : Env) (d : ssetDownscale)
    (acts : List StatefulSet) (j : Nat) (nm : String) (r : Nat)
    (hj : (doDownscale env d acts).1.get? j = some (Effect.updateReplicas nm r)) :
    (updateZenSettingsForDownscale env d acts).1.length ≤ j ∧
    (updateZenSettingsForDownscale env d acts).2 = none := by
  obtain ⟨rest, heq, hrest, hok, herr⟩ := doDownscale_split env d acts
  rw [heq] at hj
  have hge : (updateZenSettingsForDownscale env d acts).1.length ≤ j := by
    by_contra hlt
    push_neg at hlt
    rw [List.get?_append hlt] at hj
    have hmem : Effect.updateReplicas nm r ∈ (updateZenSettingsForDownscale env d acts).1 :=
      List.get?_mem hj
    have := zenSettings_trace_k8s_free env d acts _ hmem
    simp [Effect.isK8sMutation] at this
  refine ⟨hge, ?_⟩
  rw [List.get?_append_right hge] at hj
  have hne : rest ≠ [] := by
    intro hnil
    rw [hnil] at hj
    simp at hj
  cases hz : (updateZenSettingsForDownscale env d acts).2 with
  | some e => exact absurd (herr e hz) hne
  | none => rfl

theorem doDownscale_zen_call_index (env : Env) (d : ssetDownscale)
    (acts : List StatefulSet) (i : Nat) (eff : Effect)
    (hi : (doDownscale env d acts).1.get? i = some eff)
    (hzc : eff.isZenSettingsCall = true) :
    i < (updateZenSettingsForDownscale env d acts).1.length := by
  obtain ⟨rest, heq, hrest, hok, herr⟩ := doDownscale_split env d acts
  rw [heq] at hi
  by_contra hge
  push_neg at hge
  rw [List.get?_append_right hge] at hi
  have hmem : eff ∈ rest := List.get?_mem hi
  rcases hrest eff hmem with h | h <;> subst h <;> simp [Effect.isZenSettingsCall] at hzc

/-! ### C2: settings-before-replicas ordering invariant -/

/-- C2: in every execution of `doDownscale`, if the zen-settings step
returns an error then `doDownscale` returns that error having issued no
Kubernetes mutation; a replica-count update is issued only when the
zen-settings step succeeded, and every zen-settings Elasticsearch call in
the trace strictly precedes every replica-count update. -/
theorem settings_before_replicas (env : Env) (d : ssetDownscale) (acts : List StatefulSet) :
    (∀ e, (updateZenSettingsForDownscale env d acts).2 = some e →
      doDownscale env d acts = ((updateZenSettingsForDownscale env d acts).1, some e) ∧
      ∀ eff ∈ (doDownscale env d acts).1, eff.isK8sMutation = false) ∧
    (∀ j nm r, (doDownscale env d acts).1.get? j = some (Effect.updateReplicas nm r) →
      (updateZenSettingsForDownscale env d acts).2 = none) ∧
    (∀ i j eff nm r, (doDownscale env d acts).1.get? i = some eff →
      eff.isZenSettingsCall = true →
      (doDownscale env d acts).1.get? j = some (Effect.updateReplicas nm r) →
      i < j) := by
  refine ⟨?_, ?_, ?_⟩
  · intro e hz
    have heq := doDownscale_of_zen_err env d acts e hz
    refine ⟨heq, ?_⟩
    intro eff hmem
    rw [heq] at hmem
    exact zenSettings_trace_k8s_free env d acts eff hmem
  · intro j nm r hj
    exact (doDownscale_replica_update_index env d acts j nm r hj).2
  · intro i j eff nm r hi hzc hj
    have h1 := doDownscale_zen_call_index env d acts i eff hi hzc
    have h2 := (doDownscale_replica_update_index env d acts j nm r hj).1
    omega

/-- Witness for C2: when the zen2 call fails, `doDownscale` returns that
error with no mutation issued; on the successful environment the replica
update at index 1 follows the voting-exclusion call at index 0. -/
theorem settings_before_replicas_witness :
    doDownscale envZen2Err dM [mSset] =
      ((updateZenSettingsForDownscale envZen2Err dM [mSset]).1, some "zen2 failed") ∧
    (updateZenSettingsForDownscale (envWith (fun _ _ => false)) dM [mSset]).2 = none ∧
    (0 : Nat) < 1 := by
  refine ⟨((settings_before_replicas envZen2Err dM [mSset]).1 "zen2 failed" rfl).1, ?_, ?_⟩
  · exact (settings_before_replicas (envWith (fun _ _ => false)) dM [mSset]).2.1 1 "m" 3 rfl
  · exact (settings_before_replicas (envWith (fun _ _ => false)) dM [mSset]).2.2 0 1
      (Effect.addVotingConfigExclusions "m" ["m-4", "m-3"]) "m" 3 rfl rfl rfl

/-! ### C5: zen1 quorum gating -/

/-- C5: for a master-eligible StatefulSet downscale with at least one
zen1-compatible node, observing exactly 2 ready master pods triggers the
legacy minimum-master-nodes update with value 1 together with a warning
event, and the legacy update strictly precedes any replica-count update in
the trace; observing any other number of ready masters (such as 3, the
3-to-2 transition) issues no legacy minimum-master-nodes update in this
pass. -/
theorem zen1_quorum_gating (env : Env) (d : ssetDownscale) (acts : List StatefulSet)
    (hmaster : d.statefulSet.master = true)
    (hzen1 : atLeastOneNodeCompatibleWithZen1 acts = true) :
    (env.readyMasters = .ok 2 →
      Effect.addEvent "Unhealthy" "Downscaling from 2 to 1 master nodes" ∈
        (doDownscale env d acts).1 ∧
      Effect.updateMinimumMasterNodes 1 ∈ (doDownscale env d acts).1 ∧
      ∀ i j nm r,
        (doDownscale env d acts).1.get? i = some (Effect.updateMinimumMasterNodes 1) →
        (doDownscale env d acts).1.get? j = some (Effect.updateReplicas nm r) →
        i < j) ∧
    (∀ k, env.readyMasters = .ok k → k ≠ 2 →
      ∀ n, Effect.updateMinimumMasterNodes n ∉ (doDownscale env d acts).1) := by
  constructor
  · intro h2
    have hz1 : maybeUpdateZen1ForDownscale env acts =
        ([Effect.addEvent "Unhealthy" "Downscaling from 2 to 1 master nodes",
          Effect.updateMinimumMasterNodes 1], env.zen1UpdateResult) := by
      simp [maybeUpdateZen1ForDownscale, hzen1, h2]
    have hzen_mem : ∀ eff,
        eff ∈ (maybeUpdateZen1ForDownscale env acts).1 →
        eff ∈ (updateZenSettingsForDownscale env d acts).1 := by
      intro eff hmem
      unfold updateZenSettingsForDownscale
      simp only [hmaster, Bool.not_true, Bool.false_eq_true, if_false]
      split
      · exact hmem
      · exact List.mem_append_left _ hmem
    obtain ⟨rest, heq, _, _, _⟩ := doDownscale_split env d acts
    have hmem_do : ∀ eff,
        eff ∈ (updateZenSettingsForDownscale env d acts).1 →
        eff ∈ (doDownscale env d acts).1 := by
      intro eff hmem
      rw [heq]
      exact List.mem_append_left _ hmem
    refine ⟨?_, ?_, ?_⟩
    · exact hmem_do _ (hzen_mem _ (by rw [hz1]; simp))
    · exact hmem_do _ (hzen_mem _ (by rw [hz1]; simp))
    · intro i j nm r hi hj
      have h1 := doDownscale_zen_call_index env d acts i _ hi rfl
      have h2' := (doDownscale_replica_update_index env d acts j nm r hj).1
      omega
  · intro k hk hne n hmem
    have hz1 : maybeUpdateZen1ForDownscale env acts = ([], none) := by
      unfold maybeUpdateZen1ForDownscale
      split
      · rfl
      · rw [hk]
        simp [hne]
    obtain ⟨rest, heq, hrest, _, _⟩ := doDownscale_split env d acts
    rw [heq, List.mem_append] at hmem
    rcases hmem with hmem | hmem
    · rcases mem_updateZen_trace env d acts _ hmem with h | h
      · rw [hz1] at h; simp at h
      · exact absurd h (by simp)
    · rcases hrest _ hmem with h | h <;> exact absurd h (by simp)

/-- Witness for C5: with 2 ready masters the legacy update (index 1)
precedes the replica update (index 3); with 3 ready masters no legacy
update is issued. -/
theorem zen1_quorum_gating_witness :
    Effect.updateMinimumMasterNodes 1 ∈ (doDownscale (envMasters 2) dMZen [mZenSset]).1 ∧
    (1 : Nat) < 3 ∧
    Effect.updateMinimumMasterNodes 1 ∉ (doDownscale (envMasters 3) dMZen [mZenSset]).1 := by
  refine ⟨((zen1_quorum_gating (envMasters 2) dMZen [mZenSset] rfl rfl).1 rfl).2.1, ?_, ?_⟩
  · exact ((zen1_quorum_gating (envMasters 2) dMZen [mZenSset] rfl rfl).1 rfl).2.2
      1 3 "m" 3 rfl rfl
  · exact (zen1_quorum_gating (envMasters 3) dMZen [mZenSset] rfl rfl).2 3 rfl
      (by decide) 1

/-! ### C6: pre-condition guard -/

/-- C6: when the pod-reconciliation check reports pods not yet reconciled,
`HandleDownscale` requests a requeue with the default delay and issues no
effect at all: no exclusion scheduling, no zen settings update, no replica
mutation, no StatefulSet deletion. -/
theorem precondition_guard (env : Env) (exp act : List StatefulSet)
    (h : env.podReconciliationDone = .ok false) :
    HandleDownscale env exp act = ([], Outcome.requeue) := by
  simp [HandleDownscale, noOnGoingDeletion, h]

/-- Witness for C6 on a concrete environment whose pod check reports an
unfinished reconciliation. -/
theorem precondition_guard_witness :
    HandleDownscale
      { envWith (fun _ _ => false) with podReconciliationDone := .ok false }
      [⟨"data", 3, false, false⟩] [⟨"data", 5, false, false⟩] = ([], Outcome.requeue) :=
  precondition_guard
    { envWith (fun _ _ => false) with podReconciliationDone := .ok false }
    [⟨"data", 3, false, false⟩] [⟨"data", 5, false, false⟩] rfl

/-! ### C7: hard-error abort -/

/-- C7: an error from scheduling data migrations makes `HandleDownscale`
return that error immediately, the migration scheduling being the only
effect issued; and an error from attempting a downscale makes the loop
return that error immediately, issuing no effect of the remaining intents
and attempting no internal retry. -/
theorem hard_error_abort (env : Env) (exp act : List StatefulSet) :
    (∀ e, env.podReconciliationDone = .ok true → env.migrateDataResult = some e →
      HandleDownscale env exp act =
        ([Effect.migrateData (leavingNodeNames (calculateDownscales exp act))],
         Outcome.error e)) ∧
    (∀ allLeaving d rest requeued e,
      (attemptDownscale env d allLeaving act).2.2 = some e →
      downscaleLoop env allLeaving act (d :: rest) requeued =
        ((attemptDownscale env d allLeaving act).1, Outcome.error e)) := by
  constructor
  · intro e h1 h2
    simp [HandleDownscale, noOnGoingDeletion, h1, h2]
  · intro allLeaving d rest requeued e h
    simp [downscaleLoop, h]

/-- Witness for C7: the migration-scheduling failure aborts the concrete
pass after its single effect, and a failing deletion aborts the loop before
the remaining intent is attempted. -/
theorem hard_error_abort_witness :
    HandleDownscale envMigErr [⟨"data", 3, false, false⟩] [⟨"data", 5, false, false⟩] =
      ([Effect.migrateData ["data-4", "data-3"]], Outcome.error "es down") ∧
    downscaleLoop envDelErr [] []
        [⟨⟨"gone", 0, false, false⟩, 0, 0⟩, ⟨⟨"data", 5, false, false⟩, 5, 3⟩] false =
      ([Effect.deleteStatefulSet "gone"], Outcome.error "api error") := by
  constructor
  · exact (hard_error_abort envMigErr
      [⟨"data", 3, false, false⟩] [⟨"data", 5, false, false⟩]).1 "es down" rfl rfl
  · exact (hard_error_abort envDelErr [] []).2 []
      ⟨⟨"gone", 0, false, false⟩, 0, 0⟩ [⟨⟨"data", 5, false, false⟩, 5, 3⟩] false
      "api error" rfl

/-! ### C4: the Topology Differ contract (corrected) -/

/-- Counterexample to C4 as stated: the StatefulSet named s is present in
the expected list and its replica count (0) matches the actual one, yet
`calculateDownscales` produces an intent for it, because the code also
fires on a present-but-zero expected replica count. -/
theorem differ_contract_counterexample :
    GetByName [sZero] "s" = some sZero ∧
    ¬ sZero.replicas < sZero.replicas ∧
    calculateDownscales [sZero] [sZero] =
      [{ statefulSet := sZero, initialReplicas := 0, targetReplicas := 0 }] :=
  ⟨rfl, by decide, rfl⟩

/-- C4 (amended): `calculateDownscales` produces an intent for exactly
those actual StatefulSets whose effective expected replica count — the
expected replicas, or 0 when absent from expected — is 0 or strictly less
than the actual replica count; every produced intent carries the actual
replicas as initial, the effective expected replicas as target, and
satisfies target ≤ initial; no intent is produced for any other
StatefulSet.  The function is pure. -/
theorem differ_contract (exp act : List StatefulSet) :
    (∀ d ∈ calculateDownscales exp act,
      d.statefulSet ∈ act ∧
      d.initialReplicas = d.statefulSet.replicas ∧
      d.targetReplicas = effectiveExpectedReplicas exp d.statefulSet.name ∧
      (d.targetReplicas = 0 ∨ d.targetReplicas < d.initialReplicas) ∧
      d.targetReplicas ≤ d.initialReplicas) ∧
    (∀ a ∈ act,
      effectiveExpectedReplicas exp a.name = 0 ∨
        effectiveExpectedReplicas exp a.name < a.replicas →
      ({ statefulSet := a, initialReplicas := a.replicas,
         targetReplicas := effectiveExpectedReplicas exp a.name } : ssetDownscale) ∈
        calculateDownscales exp act) ∧
    (∀ a ∈ act,
      ¬(effectiveExpectedReplicas exp a.name = 0 ∨
          effectiveExpectedReplicas exp a.name < a.replicas) →
      ∀ d ∈ calculateDownscales exp act, d.statefulSet ≠ a) := by
  refine ⟨?_, ?_, ?_⟩
  · intro d hd
    rw [calculateDownscales, List.mem_filterMap] at hd
    obtain ⟨a, ha, hfa⟩ := hd
    by_cases hc : effectiveExpectedReplicas exp a.name = 0 ∨
        effectiveExpectedReplicas exp a.name < a.replicas
    · simp only [hc, if_true] at hfa
      injection hfa with hfa
      subst hfa
      refine ⟨ha, rfl, rfl, hc, ?_⟩
      rcases hc with hc | hc
      · simp [hc]
      · exact Nat.le_of_lt hc
    · simp [hc] at hfa
  · intro a ha hc
    rw [calculateDownscales, List.mem_filterMap]
    exact ⟨a, ha, by simp [hc]⟩
  · intro a ha hc d hd heq
    rw [calculateDownscales, List.mem_filterMap] at hd
    obtain ⟨b, hb, hfb⟩ := hd
    by_cases hcb : effectiveExpectedReplicas exp b.name = 0 ∨
        effectiveExpectedReplicas exp b.name < b.replicas
    · simp only [hcb, if_true] at hfb
      injection hfb with hfb
      subst hfb
      simp only at heq
      subst heq
      exact hc hcb
    · simp [hcb] at hfb

/-- Witness for C4: the removal intent for b is produced, the shrink intent
for a satisfies target ≤ initial, and no intent names the matching c. -/
theorem differ_contract_witness :
    ({ statefulSet := ⟨"b", 2, false, false⟩, initialReplicas := 2,
       targetReplicas := 0 } : ssetDownscale) ∈ calculateDownscales exp4 act4 ∧
    ({ statefulSet := ⟨"a", 5, false, false⟩, initialReplicas := 5,
       targetReplicas := 3 } : ssetDownscale).targetReplicas ≤ 5 ∧
    ({ statefulSet := ⟨"a", 5, false, false⟩, initialReplicas := 5,
       targetReplicas := 3 } : ssetDownscale).statefulSet ≠ ⟨"c", 2, false, false⟩ := by
  refine ⟨?_, ?_, ?_⟩
  · exact (differ_contract exp4 act4).2.1 ⟨"b", 2, false, false⟩ (by decide) (by decide)
  · exact ((differ_contract exp4 act4).1
      ⟨⟨"a", 5, false, false⟩, 5, 3⟩ (by decide)).2.2.2.2
  · exact (differ_contract exp4 act4).2.2 ⟨"c", 2, false, false⟩ (by decide) (by decide)
      ⟨⟨"a", 5, false, false⟩, 5, 3⟩ (by decide)

/-! ### C3: end-to-end scenario B (corrected) -/

/-- Counterexample to C3 as stated: with ordinal 4 migrating, the pass
issues no replica update at all — the replica count stays 5, it does not
become 4 — though it does request a requeue. -/
theorem scenarioB_counterexample :
    (HandleDownscale envB expB actB).1 =
      [Effect.migrateData ["data-4", "data-3"], Effect.updateMigratingStatus] ∧
    (HandleDownscale envB expB actB).1.contains (Effect.updateReplicas "data" 4) = false ∧
    (HandleDownscale envB expB actB).2 = Outcome.requeue :=
  ⟨rfl, rfl, rfl⟩

/-- C3 (amended): with the leaving node at ordinal 4 reporting migration
incomplete, `HandleDownscale` performs no replica change this pass (the
count stays 5, ordinal 4 is retained because nothing is removed) and
requests a requeue; the run that produces replica count 4 with a requeue is
the dual one — ordinal 4 complete and ordinal 3 incomplete — which removes
only ordinal 4 and retains ordinal 3. -/
theorem scenarioB_amended :
    ((HandleDownscale envB expB actB).1 =
       [Effect.migrateData ["data-4", "data-3"], Effect.updateMigratingStatus] ∧
     (HandleDownscale envB expB actB).2 = Outcome.requeue) ∧
    ((HandleDownscale envBdual expB actB).1 =
       [Effect.migrateData ["data-4", "data-3"], Effect.updateMigratingStatus,
        Effect.updateReplicas "data" 4, Effect.expectGeneration "data"] ∧
     (HandleDownscale envBdual expB actB).2 = Outcome.requeue) :=
  ⟨⟨rfl, rfl⟩, ⟨rfl, rfl⟩⟩

/-! ### C10: deletion only at zero replicas -/

theorem mem_performableLoop_trace (env : Env) (allLeaving : List String) :
    ∀ (l : List String) (t : Nat) (eff : Effect),
      eff ∈ (performableTargetLoop env allLeaving l t).1 →
      eff = Effect.updateMigratingStatus := by
  intro l
  induction l with
  | nil => intro t eff h; simp [performableTargetLoop] at h
  | cons node rest ih =>
    intro t eff h
    by_cases hm : env.isMigratingData node allLeaving
    · simp [performableTargetLoop, hm] at h
      exact h
    · have hm' : env.isMigratingData node allLeaving = false := by simpa using hm
      simp only [performableTargetLoop, hm', Bool.false_eq_true, if_false] at h
      exact ih (t - 1) eff h

theorem doDownscale_no_delete (env : Env) (d : ssetDownscale) (acts : List StatefulSet)
    (nm : String) : Effect.deleteStatefulSet nm ∉ (doDownscale env d acts).1 := by
  intro h
  obtain ⟨rest, heq, hrest, _, _⟩ := doDownscale_split env d acts
  rw [heq, List.mem_append] at h
  rcases h with h | h
  · have := zenSettings_trace_k8s_free env d acts _ h
    simp [Effect.isK8sMutation] at this
  · rcases hrest _ h with h1 | h1 <;> exact absurd h1 (by simp)

theorem attempt_delete_is_removal (env : Env) (d : ssetDownscale)
    (allLeaving : List String) (acts : List StatefulSet) (nm : String)
    (h : Effect.deleteStatefulSet nm ∈ (attemptDownscale env d allLeaving acts).1) :
    d.isRemoval = true ∧ nm = d.statefulSet.name := by
  by_cases hr : d.isRemoval
  · simp only [attemptDownscale, hr, if_true, List.mem_singleton] at h
    injection h with h
    exact ⟨hr, h⟩
  · have hr' : d.isRemoval = false := by simpa using hr
    by_cases hd : d.isReplicaDecrease
    · simp only [attemptDownscale, hr', Bool.false_eq_true, if_false, hd, if_true] at h
      split at h
      · have := mem_performableLoop_trace env allLeaving d.leavingNodeNames
          d.initialReplicas _ h
        exact absurd this (by simp)
      · rw [List.mem_append] at h
        rcases h with h | h
        · have := mem_performableLoop_trace env allLeaving d.leavingNodeNames
            d.initialReplicas _ h
          exact absurd this (by simp)
        · exact absurd h (doDownscale_no_delete env _ acts nm)
    · have hd' : d.isReplicaDecrease = false := by simpa using hd
      simp [attemptDownscale, hr', hd'] at h

theorem loop_delete_from_removal (env : Env) (allLeaving : List String)
    (acts : List StatefulSet) (nm : String) :
    ∀ (ds : List ssetDownscale) (requeued : Bool),
      Effect.deleteStatefulSet nm ∈ (downscaleLoop env allLeaving acts ds requeued).1 →
      ∃ d ∈ ds, d.isRemoval = true ∧ nm = d.statefulSet.name := by
  intro ds
  induction ds with
  | nil => intro requeued h; simp [downscaleLoop] at h
  | cons d rest ih =>
    intro requeued h
    cases he : (attemptDownscale env d allLeaving acts).2.2 with
    | some e =>
      simp only [downscaleLoop, he] at h
      exact ⟨d, List.mem_cons_self d rest, attempt_delete_is_removal env d allLeaving acts nm h⟩
    | none =>
      simp only [downscaleLoop, he, List.mem_append] at h
      rcases h with h | h
      · exact ⟨d, List.mem_cons_self d rest, attempt_delete_is_removal env d allLeaving acts nm h⟩
      · obtain ⟨d', hd', hprop⟩ := ih _ h
        exact ⟨d', List.mem_cons_of_mem d hd', hprop⟩

/-- C10: a StatefulSet deletion is issued by a pass only for an actual
StatefulSet whose replica count is 0 and whose effective expected replica
count is 0 (`isRemoval`); an actual StatefulSet absent from the expected
topology but still holding replicas is instead given a shrink intent with
target 0 — not a removal, a replica decrease going through the
migration-gated path — so it can only be deleted on a later pass, once its
replicas have reached 0. -/
theorem deletion_only_at_zero (env : Env) (exp act : List StatefulSet) :
    (∀ nm, Effect.deleteStatefulSet nm ∈ (HandleDownscale env exp act).1 →
      ∃ a ∈ act, a.name = nm ∧ a.replicas = 0 ∧
        effectiveExpectedReplicas exp a.name = 0) ∧
    (∀ a ∈ act, GetByName exp a.name = none → 0 < a.replicas →
      ({ statefulSet := a, initialReplicas := a.replicas,
         targetReplicas := 0 } : ssetDownscale) ∈ calculateDownscales exp act ∧
      ({ statefulSet := a, initialReplicas := a.replicas,
         targetReplicas := 0 } : ssetDownscale).isRemoval = false ∧
      ({ statefulSet := a, initialReplicas := a.replicas,
         targetReplicas := 0 } : ssetDownscale).isReplicaDecrease = true) := by
  constructor
  · intro nm h
    unfold HandleDownscale at h
    cases hp : noOnGoingDeletion env with
    | error e => rw [hp] at h; simp at h
    | ok canProceed =>
      rw [hp] at h
      by_cases hc : canProceed
      · subst hc
        simp only [Bool.not_true, Bool.false_eq_true, if_false] at h
        cases hm : env.migrateDataResult with
        | some e => rw [hm] at h; simp at h
        | none =>
          rw [hm] at h
          simp only [List.mem_cons] at h
          rcases h with h | h
          · exact absurd h (by simp)
          · obtain ⟨d, hd, hrem, hnm⟩ := loop_delete_from_removal env _ act nm _ _ h
            rw [calculateDownscales, List.mem_filterMap] at hd
            obtain ⟨a, ha, hfa⟩ := hd
            by_cases hca : effectiveExpectedReplicas exp a.name = 0 ∨
                effectiveExpectedReplicas exp a.name < a.replicas
            · simp only [hca, if_true] at hfa
              injection hfa with hfa
              subst hfa
              simp only [ssetDownscale.isRemoval, Bool.and_eq_true, beq_iff_eq] at hrem
              exact ⟨a, ha, hnm ▸ rfl, hrem.1, hrem.2⟩
            · simp [hca] at hfa
      · have hc' : canProceed = false := by simpa using hc
        subst hc'
        simp at h
  · intro a ha habsent hpos
    refine ⟨?_, ?_, ?_⟩
    · rw [calculateDownscales, List.mem_filterMap]
      refine ⟨a, ha, ?_⟩
      have he : effectiveExpectedReplicas exp a.name = 0 := by
        simp [effectiveExpectedReplicas, habsent]
      simp [he]
    · simp only [ssetDownscale.isRemoval]
      simp only [Bool.and_eq_false_iff, beq_eq_false_iff_ne]
      left
      omega
    · simp only [ssetDownscale.isReplicaDecrease]
      simpa using hpos

/-- Witness for C10: with nothing expected, the drained StatefulSet with 2
replicas left gets a shrink-to-0 intent that is not a removal. -/
theorem deletion_only_at_zero_witness :
    ({ statefulSet := ⟨"drain", 2, false, false⟩, initialReplicas := 2,
       targetReplicas := 0 } : ssetDownscale) ∈
      calculateDownscales ([] : List StatefulSet)
        [⟨"gone", 0, false, false⟩, ⟨"drain", 2, false, false⟩] ∧
    ({ statefulSet := ⟨"drain", 2, false, false⟩, initialReplicas := 2,
       targetReplicas := 0 } : ssetDownscale).isRemoval = false ∧
    ({ statefulSet := ⟨"drain", 2, false, false⟩, initialReplicas := 2,
       targetReplicas := 0 } : ssetDownscale).isReplicaDecrease = true := by
  exact (deletion_only_at_zero (envWith (fun _ _ => false)) []
      [⟨"gone", 0, false, false⟩, ⟨"drain", 2, false, false⟩]).2
    ⟨"drain", 2, false, false⟩ (by decide) rfl (by decide)

/-! ### C9: idempotence under unchanged migration state -/

theorem isRemoval_not_decrease {d : ssetDownscale} (h : d.isRemoval = true) :
    d.isReplicaDecrease = false := by
  simp only [ssetDownscale.isRemoval, Bool.and_eq_true, beq_iff_eq] at h
  simp only [ssetDownscale.isReplicaDecrease, decide_eq_false_iff_not]
  omega

theorem performableTargetLoop_all_migrating (env : Env)
    (hall : ∀ n l, env.isMigratingData n l = true) (l : List String) :
    ∀ (nodes : List String) (t : Nat),
      performableTargetLoop env l nodes t =
        (if nodes.isEmpty then [] else [Effect.updateMigratingStatus], t) := by
  intro nodes t
  cases nodes with
  | nil => rfl
  | cons n rest => simp [performableTargetLoop, hall, List.isEmpty]

theorem attempt_all_migrating (env : Env)
    (hall : ∀ n l, env.isMigratingData n l = true)
    (hdel : ∀ s, env.deleteResult s = none)
    (d : ssetDownscale) (l : List String) (acts : List StatefulSet) :
    attemptDownscale env d l acts = (attemptTraceBlocked d, d.isReplicaDecrease, none) := by
  by_cases hr : d.isRemoval
  · simp [attemptDownscale, attemptTraceBlocked, hr, hdel, isRemoval_not_decrease hr]
  · have hr' : d.isRemoval = false := by simpa using hr
    by_cases hdec : d.isReplicaDecrease
    · have hne := leavingNodeNames_ne_nil_of_decrease hdec
      have hperf : calculatePerformableDownscale env d l =
          ([Effect.updateMigratingStatus],
           { statefulSet := d.statefulSet, initialReplicas := d.initialReplicas,
             targetReplicas := d.initialReplicas }) := by
        unfold calculatePerformableDownscale
        rw [performableTargetLoop_all_migrating env hall]
        cases hleav : d.leavingNodeNames with
        | nil => exact absurd hleav hne
        | cons n rest => simp [List.isEmpty]
      have hlt : d.targetReplicas < d.initialReplicas := by
        simpa [ssetDownscale.isReplicaDecrease] using hdec
      simp [attemptDownscale, attemptTraceBlocked, hr', hdec, hperf,
        ssetDownscale.isReplicaDecrease, Nat.lt_irrefl, hlt]
    · have hdec' : d.isReplicaDecrease = false := by simpa using hdec
      simp [attemptDownscale, attemptTraceBlocked, hr', hdec']

theorem loop_all_migrating (env : Env)
    (hall : ∀ n l, env.isMigratingData n l = true)
    (hdel : ∀ s, env.deleteResult s = none)
    (l : List String) (acts : List StatefulSet) :
    ∀ (ds : List ssetDownscale) (requeued : Bool),
      downscaleLoop env l acts ds requeued =
        (blockedTrace ds,
         if requeued || ds.any ssetDownscale.isReplicaDecrease then Outcome.requeue
         else Outcome.noRequeue) := by
  intro ds
  induction ds with
  | nil => intro requeued; simp [downscaleLoop, blockedTrace]
  | cons d rest ih =>
    intro requeued
    simp only [downscaleLoop, attempt_all_migrating env hall hdel, ih, blockedTrace,
      List.any_cons]
    rw [Bool.or_assoc]

theorem handle_all_migrating (env : Env) (exp act : List StatefulSet)
    (hpod : env.podReconciliationDone = .ok true)
    (hmig : env.migrateDataResult = none)
    (hall : ∀ n l, env.isMigratingData n l = true)
    (hdel : ∀ s, env.deleteResult s = none) :
    HandleDownscale env exp act =
      (Effect.migrateData (leavingNodeNames (calculateDownscales exp act)) ::
         blockedTrace (calculateDownscales exp act),
       if (calculateDownscales exp act).any ssetDownscale.isReplicaDecrease
       then Outcome.requeue else Outcome.noRequeue) := by
  simp [HandleDownscale, noOnGoingDeletion, hpod, hmig,
    loop_all_migrating env hall hdel]

theorem applyEffects_append (t1 t2 : List Effect) (s : List StatefulSet) :
    applyEffects (t1 ++ t2) s = applyEffects t2 (applyEffects t1 s) := by
  simp [applyEffects, List.foldl_append]

theorem applyEffects_blockedTrace (ds : List ssetDownscale) :
    ∀ s, applyEffects (blockedTrace ds) s =
      (removalNames ds).foldl (fun s nm => s.filter (fun a => a.name != nm)) s := by
  induction ds with
  | nil => intro s; rfl
  | cons d rest ih =>
    intro s
    rw [blockedTrace, applyEffects_append]
    by_cases hr : d.isRemoval
    · simp only [attemptTraceBlocked, hr, if_true]
      rw [ih]
      simp [removalNames, hr, applyEffects, applyEffect]
    · have hr' : d.isRemoval = false := by simpa using hr
      have htr : applyEffects (attemptTraceBlocked d) s = s := by
        by_cases hdec : d.isReplicaDecrease
        · simp [attemptTraceBlocked, hr', hdec, applyEffects, applyEffect]
        · have hdec' : d.isReplicaDecrease = false := by simpa using hdec
          simp [attemptTraceBlocked, hr', hdec', applyEffects]
      rw [htr, ih]
      simp [removalNames, hr']

theorem foldl_deleteNames (names : List String) :
    ∀ s : List StatefulSet,
      names.foldl (fun s nm => s.filter (fun a => a.name != nm)) s =
        s.filter (fun a => !(names.contains a.name)) := by
  induction names with
  | nil =>
    intro s
    simp
  | cons nm rest ih =>
    intro s
    simp only [List.foldl_cons]
    rw [ih, List.filter_filter]
    apply List.filter_congr
    intro a _
    simp only [List.contains_cons]
    cases h1 : a.name == nm <;> cases h2 : rest.contains a.name <;> simp [h1, h2]
    · exact fun h => by simp [h] at h1
    · exact eq_of_beq h1

theorem mem_removalNames (exp act : List StatefulSet) (nm : String) :
    nm ∈ removalNames (calculateDownscales exp act) ↔
      ∃ a ∈ act, a.name = nm ∧ a.replicas = 0 ∧
        effectiveExpectedReplicas exp a.name = 0 := by
  unfold removalNames
  rw [List.mem_map]
  constructor
  · rintro ⟨d, hd, hnm⟩
    rw [List.mem_filter] at hd
    obtain ⟨hdm, hdr⟩ := hd
    rw [calculateDownscales, List.mem_filterMap] at hdm
    obtain ⟨a, ha, hfa⟩ := hdm
    by_cases hc : effectiveExpectedReplicas exp a.name = 0 ∨
        effectiveExpectedReplicas exp a.name < a.replicas
    · simp only [hc, if_true] at hfa
      injection hfa with hfa
      subst hfa
      simp only [ssetDownscale.isRemoval, Bool.and_eq_true, beq_iff_eq] at hdr
      exact ⟨a, ha, hnm, hdr.1, hdr.2⟩
    · simp [hc] at hfa
  · rintro ⟨a, ha, hnm, hrep, heff⟩
    refine ⟨{ statefulSet := a, initialReplicas := a.replicas,
              targetReplicas := effectiveExpectedReplicas exp a.name }, ?_, hnm⟩
    rw [List.mem_filter]
    constructor
    · rw [calculateDownscales, List.mem_filterMap]
      exact ⟨a, ha, by simp [heff]⟩
    · simp [ssetDownscale.isRemoval, hrep, heff]

theorem actual2_eq (env : Env) (exp act : List StatefulSet)
    (hpod : env.podReconciliationDone = .ok true)
    (hmig : env.migrateDataResult = none)
    (hall : ∀ n l, env.isMigratingData n l = true)
    (hdel : ∀ s, env.deleteResult s = none)
    (hnod : (act.map StatefulSet.name).Nodup) :
    applyEffects (HandleDownscale env exp act).1 act =
      act.filter (fun a =>
        !(a.replicas == 0 && (effectiveExpectedReplicas exp a.name == 0))) := by
  rw [handle_all_migrating env exp act hpod hmig hall hdel]
  show applyEffects (blockedTrace (calculateDownscales exp act))
    (applyEffect act (Effect.migrateData _)) =
      act.filter (fun a =>
        !(a.replicas == 0 && (effectiveExpectedReplicas exp a.name == 0)))
  rw [show applyEffect act (Effect.migrateData
      (leavingNodeNames (calculateDownscales exp act))) = act from rfl]
  rw [applyEffects_blockedTrace, foldl_deleteNames]
  apply List.filter_congr
  intro a ha
  congr 1
  cases hR : (a.replicas == 0 && (effectiveExpectedReplicas exp a.name == 0)) with
  | true =>
    simp only [Bool.and_eq_true, beq_iff_eq] at hR
    have : a.name ∈ removalNames (calculateDownscales exp act) :=
      (mem_removalNames exp act a.name).mpr ⟨a, ha, rfl, hR.1, hR.2⟩
    simpa [List.contains_iff_exists_mem_beq] using
      List.elem_eq_true_of_mem this
  | false =>
    by_contra hcon
    have hcontains : (removalNames (calculateDownscales exp act)).contains a.name = true := by
      cases h : (removalNames (calculateDownscales exp act)).contains a.name
      · exact absurd (h ▸ rfl) hcon
      · rfl
    have hmem : a.name ∈ removalNames (calculateDownscales exp act) := by
      simpa using hcontains
    obtain ⟨b, hb, hbnm, hbrep, hbeff⟩ := (mem_removalNames exp act a.name).mp hmem
    have hba : b = a := List.inj_on_of_nodup_map hnod hb ha hbnm
    subst hba
    simp [hbrep, hbeff] at hR

theorem calculateDownscales_cons (exp : List StatefulSet) (a : StatefulSet)
    (rest : List StatefulSet) :
    calculateDownscales exp (a :: rest) =
      (if effectiveExpectedReplicas exp a.name = 0 ∨
          effectiveExpectedReplicas exp a.name < a.replicas then
        [{ statefulSet := a, initialReplicas := a.replicas,
           targetReplicas := effectiveExpectedReplicas exp a.name }]
       else []) ++ calculateDownscales exp rest := by
  by_cases hcond : effectiveExpectedReplicas exp a.name = 0 ∨
      effectiveExpectedReplicas exp a.name < a.replicas
  · simp [calculateDownscales, List.filterMap_cons, hcond]
  · simp [calculateDownscales, List.filterMap_cons, hcond]

theorem downscales_after_removals (exp : List StatefulSet) :
    ∀ act : List StatefulSet,
      calculateDownscales exp (act.filter (fun a =>
          !(a.replicas == 0 && (effectiveExpectedReplicas exp a.name == 0)))) =
        (calculateDownscales exp act).filter (fun d => !d.isRemoval) := by
  intro act
  induction act with
  | nil => rfl
  | cons a rest ih =>
    rw [List.filter_cons, calculateDownscales_cons, List.filter_append]
    by_cases hrep : a.replicas = 0
    · by_cases heff : effectiveExpectedReplicas exp a.name = 0
      · have hcond : effectiveExpectedReplicas exp a.name = 0 ∨
            effectiveExpectedReplicas exp a.name < a.replicas := Or.inl heff
        have hrem : ssetDownscale.isRemoval
            { statefulSet := a, initialReplicas := a.replicas,
              targetReplicas := effectiveExpectedReplicas exp a.name } = true := by
          simp [ssetDownscale.isRemoval, hrep, heff]
        rw [if_neg (by simp [hrep, heff]), if_pos hcond]
        simp only [List.filter_cons, hrem, Bool.not_true, Bool.false_eq_true, if_false,
          List.filter_nil, List.nil_append]
        exact ih
      · have hcond : ¬(effectiveExpectedReplicas exp a.name = 0 ∨
            effectiveExpectedReplicas exp a.name < a.replicas) := by
          push_neg
          exact ⟨heff, by omega⟩
        rw [if_pos (by simp [heff]), calculateDownscales_cons, if_neg hcond]
        simp only [List.filter_nil, List.nil_append]
        exact ih
    · have hrem : ssetDownscale.isRemoval
          { statefulSet := a, initialReplicas := a.replicas,
            targetReplicas := effectiveExpectedReplicas exp a.name } = false := by
        simp [ssetDownscale.isRemoval, hrep]
      by_cases hcond : effectiveExpectedReplicas exp a.name = 0 ∨
          effectiveExpectedReplicas exp a.name < a.replicas
      · rw [if_pos (by simp [hrep]), calculateDownscales_cons, if_pos hcond]
        simp only [List.singleton_append, List.filter_cons, hrem, Bool.not_false, if_true,
          List.filter_nil, List.cons_append, List.nil_append]
        rw [ih]
      · rw [if_pos (by simp [hrep]), calculateDownscales_cons, if_neg hcond]
        simp only [List.filter_nil, List.nil_append]
        exact ih

theorem any_decrease_filter_removals (ds : List ssetDownscale) :
    (ds.filter (fun d => !d.isRemoval)).any ssetDownscale.isReplicaDecrease =
      ds.any ssetDownscale.isReplicaDecrease := by
  induction ds with
  | nil => rfl
  | cons d rest ih =>
    by_cases hr : d.isRemoval
    · simp only [List.filter_cons, hr, Bool.not_true, Bool.false_eq_true, if_false,
        List.any_cons, ih, isRemoval_not_decrease hr, Bool.false_or]
    · have hr' : d.isRemoval = false := by simpa using hr
      simp [List.filter_cons, hr', List.any_cons, ih]

theorem mem_blockedTrace {eff : Effect} :
    ∀ ds : List ssetDownscale, eff ∈ blockedTrace ds →
      ∃ d ∈ ds, eff ∈ attemptTraceBlocked d := by
  intro ds
  induction ds with
  | nil => intro h; simp [blockedTrace] at h
  | cons d rest ih =>
    intro h
    rw [blockedTrace, List.mem_append] at h
    rcases h with h | h
    · exact ⟨d, List.mem_cons_self d rest, h⟩
    · obtain ⟨d', hd', he⟩ := ih h
      exact ⟨d', List.mem_cons_of_mem d hd', he⟩

/-- C9: with unchanged external state and nothing migrated (every leaving
node still migrating) on an otherwise successful environment, running
`HandleDownscale`, applying its emitted mutations to the StatefulSet state,
and running it again yields the same requeue decision both times, applies
no Kubernetes mutation on the second run, and every shrink intent of the
second run has a performable target equal to its (post-first-run) replica
count: the system stabilizes. -/
theorem handle_downscale_idempotent (env : Env) (exp act : List StatefulSet)
    (hpod : env.podReconciliationDone = .ok true)
    (hmig : env.migrateDataResult = none)
    (hdel : ∀ s, env.deleteResult s = none)
    (hall : ∀ n l, env.isMigratingData n l = true)
    (hnod : (act.map StatefulSet.name).Nodup) :
    (HandleDownscale env exp (applyEffects (HandleDownscale env exp act).1 act)).2 =
      (HandleDownscale env exp act).2 ∧
    (∀ eff ∈ (HandleDownscale env exp (applyEffects (HandleDownscale env exp act).1 act)).1,
      eff.isK8sMutation = false) ∧
    (∀ d ∈ calculateDownscales exp (applyEffects (HandleDownscale env exp act).1 act),
      d.isReplicaDecrease = true →
      (calculatePerformableDownscale env d
          (leavingNodeNames (calculateDownscales exp
            (applyEffects (HandleDownscale env exp act).1 act)))).2.targetReplicas =
        d.initialReplicas) := by
  have hact2 := actual2_eq env exp act hpod hmig hall hdel hnod
  rw [hact2]
  have hds2 : calculateDownscales exp (act.filter (fun a =>
      !(a.replicas == 0 && (effectiveExpectedReplicas exp a.name == 0)))) =
        (calculateDownscales exp act).filter (fun d => !d.isRemoval) :=
    downscales_after_removals exp act
  have hrun1 := handle_all_migrating env exp act hpod hmig hall hdel
  have hrun2 := handle_all_migrating env exp
    (act.filter (fun a =>
      !(a.replicas == 0 && (effectiveExpectedReplicas exp a.name == 0))))
    hpod hmig hall hdel
  refine ⟨?_, ?_, ?_⟩
  · rw [hrun2, hrun1, hds2, any_decrease_filter_removals]
  · intro eff hmem
    rw [hrun2] at hmem
    simp only [List.mem_cons] at hmem
    rcases hmem with hmem | hmem
    · subst hmem; rfl
    · obtain ⟨d, hd, he⟩ := mem_blockedTrace _ hmem
      rw [hds2, List.mem_filter] at hd
      have hr : d.isRemoval = false := by
        cases h : d.isRemoval
        · rfl
        · rw [h] at hd; simp at hd
      by_cases hdec : d.isReplicaDecrease
      · simp only [attemptTraceBlocked, hr, Bool.false_eq_true, if_false, hdec,
          if_true, List.mem_singleton] at he
        subst he; rfl
      · have hdec' : d.isReplicaDecrease = false := by simpa using hdec
        simp [attemptTraceBlocked, hr, hdec'] at he
  · intro d _ _
    unfold calculatePerformableDownscale
    rw [performableTargetLoop_all_migrating env hall]

/-- Witness for C9: on the concrete fixture, the second run returns the
same requeue outcome, and the fixture's second-run intent for keep (now a
5-to-3 shrink blocked at its first node) keeps its performable target at
its current replicas. -/
theorem handle_downscale_idempotent_witness :
    (HandleDownscale envAllMigrating exp9
        (applyEffects (HandleDownscale envAllMigrating exp9 act9).1 act9)).2 =
      (HandleDownscale envAllMigrating exp9 act9).2 ∧
    (calculatePerformableDownscale envAllMigrating
        ⟨⟨"keep", 5, false, false⟩, 5, 3⟩
        (leavingNodeNames (calculateDownscales exp9
          (applyEffects (HandleDownscale envAllMigrating exp9 act9).1 act9)))).2.targetReplicas
      = 5 := by
  constructor
  · exact (handle_downscale_idempotent envAllMigrating exp9 act9 rfl rfl
      (fun _ => rfl) (fun _ _ => rfl) (by decide)).1
  · exact (handle_downscale_idempotent envAllMigrating exp9 act9 rfl rfl
      (fun _ => rfl) (fun _ _ => rfl) (by decide)).2.2
      ⟨⟨"keep", 5, false, false⟩, 5, 3⟩ (by decide) rfl

end Downscale
